import Mathlib

/-!
Verification development for the extension-based file organizer
(`Part3/file_organizer.py`, with the variant `BackupCode/Part3fileManager.py`).

The Python code is shallowly embedded: the target directory is a snapshot
list of immediate children (regular files and subdirectories with their
file names), `organize_files` is a pure function from that snapshot to a
final snapshot together with the log lines and console lines it emits,
and an unhandled Python exception is represented by a `fault` field that,
once set, freezes the remaining iterations (the exception propagates out
of the loop).  `mkdir(exist_ok=True)` is embedded fallibly: when the
category path exists as a regular file, CPython raises `FileExistsError`
(`exist_ok` only suppresses the error for an existing directory), which
nothing in the script catches.  Strings are modelled as Lean `String`s;
`str.lower` is modelled on ASCII letters (all filenames and extensions in
this development are ASCII, where CPython's `str.lower` agrees with the
ASCII table).
-/

namespace FileOrganizer

/-- The ASCII upper/lower case table used to model Python `str.lower`. -/
def upperLowerTable : List (Char × Char) :=
  [('A','a'), ('B','b'), ('C','c'), ('D','d'), ('E','e'), ('F','f'),
   ('G','g'), ('H','h'), ('I','i'), ('J','j'), ('K','k'), ('L','l'),
   ('M','m'), ('N','n'), ('O','o'), ('P','p'), ('Q','q'), ('R','r'),
   ('S','s'), ('T','t'), ('U','u'), ('V','v'), ('W','w'), ('X','x'),
   ('Y','y'), ('Z','z')]

/-- Lower-case one character, as Python `str.lower` does on ASCII input. -/
def lowerChar (c : Char) : Char :=
  match List.find? (fun p => p.1 = c) upperLowerTable with
  | some p => p.2
  | none => c

/-- Python `str.lower` restricted to ASCII strings. -/
def pyLower (s : String) : String := String.mk (s.data.map lowerChar)

/-- Index of the last `'.'` in a list of characters (`str.rfind('.')`,
with `none` standing for the Python result `-1`). -/
def lastDotIdx : List Char → Option Nat
  | [] => none
  | c :: cs =>
    match lastDotIdx cs with
    | some i => some (i + 1)
    | none => if c = '.' then some 0 else none

/-- CPython `PurePath.suffix` on a file name, character-list level:
`i = name.rfind('.'); return name[i:] if 0 < i < len(name) - 1 else ''`.
(The guard `i + 1 < length` is the Nat form of `i < len(name) - 1`.) -/
def pySuffixList (cs : List Char) : List Char :=
  match lastDotIdx cs with
  | none => []
  | some i => if 0 < i ∧ i + 1 < cs.length then cs.drop i else []

/-- CPython `PurePath.suffix` of a file name (the final path component). -/
def pySuffix (s : String) : String := String.mk (pySuffixList s.data)

/-- The category table of `Part3/file_organizer.py` (dict literal, in its
declared order; Documents includes `.pptx` and `.xlsx` in this variant). -/
def categories : List (String × List String) :=
  [("Images", [".png", ".jpg", ".jpeg"]),
   ("Documents", [".pdf", ".docx", ".txt", ".pptx", ".xlsx"]),
   ("Videos", [".mp4", ".mkv"]),
   ("Scripts", [".py", ".sh"]),
   ("Archives", [".zip", ".rar"])]

/-- The category table of `BackupCode/Part3fileManager.py` (Documents
without `.pptx`/`.xlsx`). -/
def categoriesBackup : List (String × List String) :=
  [("Images", [".png", ".jpg", ".jpeg"]),
   ("Documents", [".pdf", ".docx", ".txt"]),
   ("Videos", [".mp4", ".mkv"]),
   ("Scripts", [".py", ".sh"]),
   ("Archives", [".zip", ".rar"])]

/-- First category (in table order) whose extension list contains `ext` —
the inner `for folder_name, extensions in categories.items()` lookup. -/
def findCategory : List (String × List String) → String → Option String
  | [], _ => none
  | (cat, exts) :: rest, ext =>
    if ext ∈ exts then some cat else findCategory rest ext

/-- The category chosen for a file name by `organize_files`
(`file.suffix.lower()` looked up in the Part3 table). -/
def classify (n : String) : Option String :=
  findCategory categories (pyLower (pySuffix n))

example : pySuffix "a.txt" = ".txt" := by decide
example : pySuffix "REPORT.PDF" = ".PDF" := by decide
example : pySuffix ".bashrc" = "" := by decide
example : pySuffix "noext" = "" := by decide
example : pySuffix "file." = "" := by decide
example : pySuffix "a.b.c" = ".c" := by decide
example : pyLower ".PDF" = ".pdf" := by decide
example : classify "photo.JPG" = some "Images" := by decide
example : classify "photo.jpg" = some "Images" := by decide
example : classify "a.txt" = some "Documents" := by decide
example : classify "c.xyz" = none := by decide

/-- An immediate child of the target directory at scan time: a regular
file, or a subdirectory together with the names of the files inside it. -/
inductive FSEntry
  | file (name : String)
  | dir (name : String) (contents : List String)
deriving DecidableEq, Repr

/-- One structured log line written by the script
(`logging.info` / `logging.error`). -/
inductive LogLine
  | moved (fileName cat : String)
  | skipped (fileName : String)
  | errorNoFolder
  | completed
deriving DecidableEq, Repr

/-- One console line printed by the script. -/
inductive ConsoleLine
  | folderNotExist
  | organizing
  | movedMsg (fileName cat : String)
  | completedMsg
  | usage
  | timeTaken
deriving DecidableEq, Repr

/-- An unhandled Python exception escaping `organize_files`:
`Path.iterdir()` on an existing non-directory raises `NotADirectoryError`,
and `mkdir(exist_ok=True)` raises `FileExistsError` when the category path
exists as a non-directory. -/
inductive RunError
  | notADirectory
  | fileExists
deriving DecidableEq, Repr

/-- The evolving run state: the target directory's children, the log and
console lines emitted so far, and the exception propagating out of the
loop, if one was raised (once set, no further iteration executes). -/
structure St where
  fs : List FSEntry
  logs : List LogLine
  console : List ConsoleLine
  fault : Option RunError
deriving DecidableEq, Repr

/-- Is there a subdirectory named `c` among the children? -/
def hasDir (fs : List FSEntry) (c : String) : Bool :=
  fs.any fun e =>
    match e with
    | FSEntry.dir d _ => d = c
    | _ => false

/-- Is there a regular file named `c` among the root children? -/
def hasRootFile (fs : List FSEntry) (c : String) : Bool :=
  fs.any fun e =>
    match e with
    | FSEntry.file m => m = c
    | _ => false

/-- `target_folder.mkdir(exist_ok=True)`: succeeds leaving the snapshot
unchanged if a directory named `c` already exists, raises
`FileExistsError` if the path exists as a regular file (`exist_ok=True`
only suppresses the error for an existing directory), and otherwise
creates the empty subdirectory. -/
def mkdirExistOk (fs : List FSEntry) (c : String) :
    Except RunError (List FSEntry) :=
  if hasDir fs c then Except.ok fs
  else if hasRootFile fs c then Except.error RunError.fileExists
  else Except.ok (fs ++ [FSEntry.dir c []])

/-- Remove the (first) root file entry named `n` — the source half of
`shutil.move`. -/
def removeRootFile : List FSEntry → String → List FSEntry
  | [], _ => []
  | FSEntry.file m :: rest, n =>
    if m = n then rest else FSEntry.file m :: removeRootFile rest n
  | e :: rest, n => e :: removeRootFile rest n

/-- Append file `n` to the contents of the (first) subdirectory named
`c` — the destination half of `shutil.move`. -/
def addToDir : List FSEntry → String → String → List FSEntry
  | [], _, _ => []
  | FSEntry.dir d cs :: rest, c, n =>
    if d = c then FSEntry.dir d (cs ++ [n]) :: rest
    else FSEntry.dir d cs :: addToDir rest c n
  | e :: rest, c, n => e :: addToDir rest c n

/-- Contents of the (first) subdirectory named `d`, if present. -/
def dirContents : List FSEntry → String → Option (List String)
  | [], _ => none
  | FSEntry.dir e cs :: rest, d => if e = d then some cs else dirContents rest d
  | _ :: rest, d => dirContents rest d

/-- Number of root file entries named `n`. -/
def rootCount (fs : List FSEntry) (n : String) : Nat :=
  (fs.filter fun e => e = FSEntry.file n).length

/-- Inner category loop of `Part3/file_organizer.py` for the file `n`
with (lower-cased) extension `ext`.  Faithful to the mis-indented source:
the `if not file_moved` skip-log sits INSIDE the loop (12-space indent,
line 79), so each non-matching category logs one `Skipped` line; on a
match the code runs `mkdir(exist_ok=True)` — whose `FileExistsError`
propagates uncaught, before any move or log — then `shutil.move`, logs
and prints the move, and breaks. -/
def innerP3 (n ext : String) : List (String × List String) → St → St
  | [], st => st
  | (cat, exts) :: rest, st =>
    if ext ∈ exts then
      match mkdirExistOk st.fs cat with
      | Except.error e => { st with fault := some e }
      | Except.ok fs1 =>
        { fs := addToDir (removeRootFile fs1 n) cat n
          logs := st.logs ++ [LogLine.moved n cat]
          console := st.console ++ [ConsoleLine.movedMsg n cat]
          fault := st.fault }
    else
      innerP3 n ext rest { st with logs := st.logs ++ [LogLine.skipped n] }

/-- One iteration of the outer `for file in base_path.iterdir()` loop of
`Part3/file_organizer.py`.  A propagating exception stops all further
iteration; directories are skipped by `continue`; for a file, the inner
category loop runs and then — because the completion print/log is
indented inside the outer loop (8 spaces, lines 82-83) — the completion
message is emitted for this entry, unless the inner loop raised. -/
def processEntryP3 (cats : List (String × List String)) (st : St)
    (e : FSEntry) : St :=
  if st.fault.isSome then st
  else
    match e with
    | FSEntry.dir _ _ => st
    | FSEntry.file n =>
      let st1 := innerP3 n (pyLower (pySuffix n)) cats st
      if st1.fault.isSome then st1
      else
        { st1 with
          logs := st1.logs ++ [LogLine.completed]
          console := st1.console ++ [ConsoleLine.completedMsg] }

/-- Inner category loop of `BackupCode/Part3fileManager.py`: on a match,
mkdir (whose `FileExistsError` propagates uncaught) + move + log + print
+ break; otherwise fall through, with no logging inside the loop.  The
Bool records leaving the loop via the match branch. -/
def innerBk (n ext : String) : List (String × List String) → St → St × Bool
  | [], st => (st, false)
  | (cat, exts) :: rest, st =>
    if ext ∈ exts then
      match mkdirExistOk st.fs cat with
      | Except.error e => ({ st with fault := some e }, true)
      | Except.ok fs1 =>
        ({ fs := addToDir (removeRootFile fs1 n) cat n
           logs := st.logs ++ [LogLine.moved n cat]
           console := st.console ++ [ConsoleLine.movedMsg n cat]
           fault := st.fault }, true)
    else innerBk n ext rest st

/-- One iteration of the outer loop of `BackupCode/Part3fileManager.py`:
a propagating exception stops all further iteration; directories are
skipped; for a file, the inner loop runs and then `if not file_moved:`
(at outer-loop level, not reached when the inner loop raised) logs a
single `Skipped` line. -/
def processEntryBk (cats : List (String × List String)) (st : St)
    (e : FSEntry) : St :=
  if st.fault.isSome then st
  else
    match e with
    | FSEntry.dir _ _ => st
    | FSEntry.file n =>
      let r := innerBk n (pyLower (pySuffix n)) cats st
      if r.1.fault.isSome then r.1
      else if r.2 then r.1
      else { r.1 with logs := r.1.logs ++ [LogLine.skipped n] }

/-- Result of one `organize_files` call: final directory snapshot, the
log and console lines it emitted, and the unhandled exception, if any. -/
structure RunResult where
  fs : List FSEntry
  logs : List LogLine
  console : List ConsoleLine
  fault : Option RunError
deriving DecidableEq, Repr

/-- `organize_files` of `Part3/file_organizer.py`, with the category
table lifted to a parameter (the source hard-codes `categories`; spec §6
treats the table as external configuration).  `pathExists` models
`base_path.exists()`; `isDirectory` models whether `base_path` is a
directory (on an existing non-directory, `iterdir()` raises
`NotADirectoryError`, which the source does not catch).  The directory
listing is iterated as a snapshot taken at loop entry. -/
def organize_files_with (cats : List (String × List String))
    (pathExists isDirectory : Bool) (fs : List FSEntry) : RunResult :=
  if pathExists = false then
    { fs := fs, logs := [LogLine.errorNoFolder]
      console := [ConsoleLine.folderNotExist], fault := none }
  else if isDirectory = false then
    { fs := fs, logs := [], console := [ConsoleLine.organizing]
      fault := some RunError.notADirectory }
  else
    let final := fs.foldl (processEntryP3 cats)
      { fs := fs, logs := [], console := [ConsoleLine.organizing]
        fault := none }
    { fs := final.fs, logs := final.logs, console := final.console
      fault := final.fault }

/-- `organize_files` of `Part3/file_organizer.py` with its own table. -/
def organize_files (pathExists isDirectory : Bool) (fs : List FSEntry) :
    RunResult :=
  organize_files_with categories pathExists isDirectory fs

/-- `organize_files` of `BackupCode/Part3fileManager.py`: same existence
check, correctly indented skip-logging, and one completion print/log
after the loop. -/
def organize_files_backup (pathExists isDirectory : Bool)
    (fs : List FSEntry) : RunResult :=
  if pathExists = false then
    { fs := fs, logs := [LogLine.errorNoFolder]
      console := [ConsoleLine.folderNotExist], fault := none }
  else if isDirectory = false then
    { fs := fs, logs := [], console := [ConsoleLine.organizing]
      fault := some RunError.notADirectory }
  else
    let final := fs.foldl (processEntryBk categoriesBackup)
      { fs := fs, logs := [], console := [ConsoleLine.organizing]
        fault := none }
    if final.fault.isSome then
      { fs := final.fs, logs := final.logs, console := final.console
        fault := final.fault }
    else
      { fs := final.fs, logs := final.logs ++ [LogLine.completed]
        console := final.console ++ [ConsoleLine.completedMsg]
        fault := none }

/-- Result of one run of the `main` entry point: the process exit status,
whether `organize_files` was invoked, console output, and any unhandled
exception (which terminates a Python process with status 1). -/
structure MainResult where
  exitCode : Nat
  calledOrganize : Bool
  console : List ConsoleLine
  fault : Option RunError
deriving DecidableEq, Repr

/-- `main` of `Part3/file_organizer.py`: with fewer than two `sys.argv`
entries it prints the usage line and calls `sys.exit(1)`; otherwise it
times and calls `organize_files` and prints the elapsed time.  It never
inspects the outcome, so a normal return from `organize_files` ends the
process with status 0; an uncaught exception propagates (status 1). -/
def main (argv : List String) (pathExists isDirectory : Bool)
    (fs : List FSEntry) : MainResult :=
  if argv.length < 2 then
    { exitCode := 1, calledOrganize := false
      console := [ConsoleLine.usage], fault := none }
  else
    let r := organize_files pathExists isDirectory fs
    match r.fault with
    | some e =>
      { exitCode := 1, calledOrganize := true, console := r.console
        fault := some e }
    | none =>
      { exitCode := 0, calledOrganize := true
        console := r.console ++ [ConsoleLine.timeTaken], fault := none }

/-- Number of `Moved` log lines. -/
def countMoved (ls : List LogLine) : Nat :=
  (ls.filter fun l =>
    match l with
    | LogLine.moved _ _ => true
    | _ => false).length

/-- Number of `Skipped` log lines. -/
def countSkipped (ls : List LogLine) : Nat :=
  (ls.filter fun l =>
    match l with
    | LogLine.skipped _ => true
    | _ => false).length

/-- Number of completion log lines. -/
def countCompleted (ls : List LogLine) : Nat :=
  (ls.filter fun l =>
    match l with
    | LogLine.completed => true
    | _ => false).length

/-- The concrete scenario of spec §8: `a.txt`, `b.png`, `c.xyz` and an
empty pre-existing subdirectory `Old/`. -/
def scenarioFS : List FSEntry :=
  [FSEntry.file "a.txt", FSEntry.file "b.png", FSEntry.file "c.xyz",
   FSEntry.dir "Old" []]

example :
    countMoved (organize_files true true scenarioFS).logs = 2 := by decide
example :
    countSkipped (organize_files true true scenarioFS).logs = 6 := by decide
example :
    countMoved (organize_files_backup true true scenarioFS).logs = 2 := by
  decide
example :
    countSkipped (organize_files_backup true true scenarioFS).logs = 1 := by
  decide
example :
    dirContents (organize_files true true scenarioFS).fs "Documents" =
      some ["a.txt"] := by decide
example :
    dirContents (organize_files true true scenarioFS).fs "Images" =
      some ["b.png"] := by decide
example : FSEntry.file "c.xyz" ∈ (organize_files true true scenarioFS).fs := by
  decide
example :
    dirContents (organize_files true true scenarioFS).fs "Old" = some [] := by
  decide
example : countCompleted (organize_files true true []).logs = 0 := by decide
example :
    countCompleted (organize_files true true scenarioFS).logs = 3 := by decide
example : countCompleted (organize_files_backup true true []).logs = 1 := by
  decide
example :
    (organize_files true true
      [FSEntry.file "Images", FSEntry.file "b.png"]).fault =
      some RunError.fileExists := by decide
example :
    (organize_files true true
      [FSEntry.file "Images", FSEntry.file "b.png"]).fs =
      [FSEntry.file "Images", FSEntry.file "b.png"] := by decide
example :
    (organize_files_backup true true
      [FSEntry.file "Images", FSEntry.file "b.png"]).fault =
      some RunError.fileExists := by decide
example : (organize_files true true scenarioFS).fault = none := by decide
example :
    (main ["file_organizer.py", "d"] true true
      [FSEntry.file "Images", FSEntry.file "b.png"]).exitCode = 1 := by decide

/-! ### Case-lowering lemmas -/

theorem lowerChar_dot_iff (c : Char) : lowerChar c = '.' ↔ c = '.' := by
  constructor
  · intro h
    unfold lowerChar at h
    cases hf : List.find? (fun p => p.1 = c) upperLowerTable with
    | none => rw [hf] at h; exact h
    | some p =>
      rw [hf] at h
      have hmem := List.mem_of_find?_eq_some hf
      have hall : upperLowerTable.all (fun p => decide (p.2 ≠ '.')) = true := by
        decide
      exact absurd h (of_decide_eq_true (List.all_eq_true.mp hall p hmem))
  · intro h
    subst h
    decide

theorem lastDotIdx_map (cs : List Char) :
    lastDotIdx (cs.map lowerChar) = lastDotIdx cs := by
  induction cs with
  | nil => rfl
  | cons c cs ih =>
    simp only [List.map_cons, lastDotIdx, ih]
    cases lastDotIdx cs with
    | some i => rfl
    | none =>
      by_cases hc : c = '.'
      · rw [if_pos ((lowerChar_dot_iff c).mpr hc), if_pos hc]
      · rw [if_neg (fun h => hc ((lowerChar_dot_iff c).mp h)), if_neg hc]

theorem pySuffixList_map (cs : List Char) :
    pySuffixList (cs.map lowerChar) = (pySuffixList cs).map lowerChar := by
  unfold pySuffixList
  rw [lastDotIdx_map]
  cases lastDotIdx cs with
  | none => rfl
  | some i =>
    show (if 0 < i ∧ i + 1 < (List.map lowerChar cs).length then
        (List.map lowerChar cs).drop i else []) =
      List.map lowerChar (if 0 < i ∧ i + 1 < cs.length then cs.drop i else [])
    rw [List.length_map]
    by_cases h : 0 < i ∧ i + 1 < cs.length
    · rw [if_pos h, if_pos h, List.map_drop]
    · rw [if_neg h, if_neg h]; rfl

theorem pySuffix_pyLower (s : String) :
    pySuffix (pyLower s) = pyLower (pySuffix s) := by
  unfold pySuffix pyLower
  exact congrArg String.mk (pySuffixList_map s.data)

/-! ### Directory-snapshot primitive lemmas -/

theorem dirContents_append_some {fs : List FSEntry} {d : String}
    {l : List String} (h : dirContents fs d = some l) (ts : List FSEntry) :
    dirContents (fs ++ ts) d = some l := by
  induction fs with
  | nil => simp [dirContents] at h
  | cons e rest ih =>
    cases e with
    | file m =>
      simp only [dirContents] at h
      simpa only [List.cons_append, dirContents] using ih h
    | dir e cs =>
      simp only [dirContents] at h
      simp only [List.cons_append, dirContents]
      by_cases he : e = d
      · rw [if_pos he] at h ⊢; exact h
      · rw [if_neg he] at h ⊢; exact ih h

theorem hasDir_some {fs : List FSEntry} {c : String}
    (h : hasDir fs c = true) : ∃ l, dirContents fs c = some l := by
  induction fs with
  | nil => simp [hasDir] at h
  | cons e rest ih =>
    cases e with
    | file m =>
      simp only [hasDir, List.any_cons, Bool.or_eq_true] at h
      simp only [dirContents]
      exact ih (by simpa [hasDir] using h)
    | dir e cs =>
      simp only [dirContents]
      by_cases he : e = c
      · exact ⟨cs, if_pos he⟩
      · rw [if_neg he]
        simp only [hasDir, List.any_cons, Bool.or_eq_true, decide_eq_true_eq]
          at h
        exact ih (by simpa [hasDir] using h.resolve_left he)

theorem dirContents_append_new {fs : List FSEntry} {c : String}
    (h : hasDir fs c = false) (l : List String) :
    dirContents (fs ++ [FSEntry.dir c l]) c = some l := by
  induction fs with
  | nil => simp [dirContents]
  | cons e rest ih =>
    cases e with
    | file m =>
      simp only [hasDir, List.any_cons, Bool.or_eq_false_iff] at h
      simpa only [List.cons_append, dirContents] using
        ih (by simpa [hasDir] using h.2)
    | dir e cs =>
      simp only [hasDir, List.any_cons, Bool.or_eq_false_iff,
        decide_eq_false_iff_not] at h
      simp only [List.cons_append, dirContents, if_neg h.1]
      exact ih (by simpa [hasDir] using h.2)

theorem mkdirExistOk_ok_cases {fs : List FSEntry} {c : String}
    {fs1 : List FSEntry} (h : mkdirExistOk fs c = Except.ok fs1) :
    fs1 = fs ∨ (fs1 = fs ++ [FSEntry.dir c []] ∧ hasDir fs c = false) := by
  unfold mkdirExistOk at h
  by_cases hd : hasDir fs c
  · rw [if_pos hd] at h
    injection h with h
    exact Or.inl h.symm
  · rw [if_neg hd] at h
    by_cases hrf : hasRootFile fs c
    · rw [if_pos hrf] at h
      exact Except.noConfusion h
    · rw [if_neg hrf] at h
      injection h with h
      exact Or.inr ⟨h.symm, Bool.not_eq_true _ ▸ eq_false_of_ne_true hd⟩

theorem mkdirOk_dirContents_self {fs : List FSEntry} {c : String}
    {fs1 : List FSEntry} (h : mkdirExistOk fs c = Except.ok fs1) :
    ∃ l, dirContents fs1 c = some l := by
  unfold mkdirExistOk at h
  by_cases hd : hasDir fs c
  · rw [if_pos hd] at h
    injection h with h
    exact h ▸ hasDir_some hd
  · rw [if_neg hd] at h
    by_cases hrf : hasRootFile fs c
    · rw [if_pos hrf] at h
      exact Except.noConfusion h
    · rw [if_neg hrf] at h
      injection h with h
      refine ⟨[], h ▸ dirContents_append_new ?_ []⟩
      exact eq_false_of_ne_true hd

theorem mkdirOk_dirContents_preserve {fs : List FSEntry} {c d : String}
    {fs1 : List FSEntry} {l : List String}
    (h : mkdirExistOk fs c = Except.ok fs1)
    (hd : dirContents fs d = some l) : dirContents fs1 d = some l := by
  rcases mkdirExistOk_ok_cases h with rfl | ⟨rfl, _⟩
  · exact hd
  · exact dirContents_append_some hd _

theorem mkdirOk_mem_file {fs : List FSEntry} {c : String}
    {fs1 : List FSEntry} (h : mkdirExistOk fs c = Except.ok fs1)
    (n : String) : FSEntry.file n ∈ fs1 ↔ FSEntry.file n ∈ fs := by
  rcases mkdirExistOk_ok_cases h with rfl | ⟨rfl, _⟩
  · exact Iff.rfl
  · simp

theorem dirContents_removeRootFile (fs : List FSEntry) (n d : String) :
    dirContents (removeRootFile fs n) d = dirContents fs d := by
  induction fs with
  | nil => rfl
  | cons e rest ih =>
    cases e with
    | file m =>
      simp only [removeRootFile, dirContents]
      by_cases hm : m = n
      · rw [if_pos hm]
      · rw [if_neg hm]; simp only [dirContents]; exact ih
    | dir e cs =>
      simp only [removeRootFile, dirContents]
      by_cases he : e = d
      · rw [if_pos he, if_pos he]
      · rw [if_neg he, if_neg he]; exact ih

theorem dirContents_addToDir_self {fs : List FSEntry} {c : String}
    {l : List String} (h : dirContents fs c = some l) (n : String) :
    dirContents (addToDir fs c n) c = some (l ++ [n]) := by
  induction fs with
  | nil => simp [dirContents] at h
  | cons e rest ih =>
    cases e with
    | file m =>
      simp only [dirContents] at h
      simp only [addToDir, dirContents]
      exact ih h
    | dir e cs =>
      simp only [dirContents] at h
      simp only [addToDir]
      by_cases he : e = c
      · rw [if_pos he] at h
        rw [if_pos he]
        simp only [dirContents, if_pos he]
        injection h with h
        rw [h]
      · rw [if_neg he] at h
        rw [if_neg he]
        simp only [dirContents, if_neg he]
        exact ih h

theorem dirContents_addToDir {fs : List FSEntry} {d : String}
    {l : List String} (h : dirContents fs d = some l) (c n : String) :
    dirContents (addToDir fs c n) d = some l ∨
      dirContents (addToDir fs c n) d = some (l ++ [n]) := by
  induction fs with
  | nil => simp [dirContents] at h
  | cons e rest ih =>
    cases e with
    | file m =>
      simp only [dirContents] at h
      simp only [addToDir, dirContents]
      exact ih h
    | dir e cs =>
      simp only [dirContents] at h
      simp only [addToDir]
      by_cases hc : e = c
      · rw [if_pos hc]
        by_cases hd : e = d
        · rw [if_pos hd] at h
          right
          simp only [dirContents, if_pos hd]
          injection h with h
          rw [h]
        · rw [if_neg hd] at h
          left
          simp only [dirContents, if_neg hd]
          exact h
      · rw [if_neg hc]
        by_cases hd : e = d
        · rw [if_pos hd] at h
          left
          simp only [dirContents, if_pos hd]
          exact h
        · rw [if_neg hd] at h
          simp only [dirContents, if_neg hd]
          exact ih h

theorem mem_file_addToDir {fs : List FSEntry} {n : String} (c m : String) :
    FSEntry.file n ∈ addToDir fs c m ↔ FSEntry.file n ∈ fs := by
  induction fs with
  | nil => simp [addToDir]
  | cons e rest ih =>
    cases e with
    | file k => simp only [addToDir, List.mem_cons, ih]
    | dir e cs =>
      by_cases hc : e = c
      · simp only [addToDir, if_pos hc, List.mem_cons]
        constructor
        · rintro (h | h)
          · exact absurd h (by simp)
          · exact Or.inr h
        · rintro (h | h)
          · exact absurd h (by simp)
          · exact Or.inr h
      · simp only [addToDir, if_neg hc, List.mem_cons, ih]

theorem mem_removeRootFile_sub {fs : List FSEntry} {x : FSEntry}
    {n : String} (h : x ∈ removeRootFile fs n) : x ∈ fs := by
  induction fs with
  | nil => simp [removeRootFile] at h
  | cons e rest ih =>
    cases e with
    | file m =>
      simp only [removeRootFile] at h
      by_cases hm : m = n
      · rw [if_pos hm] at h
        exact List.mem_cons_of_mem _ h
      · rw [if_neg hm] at h
        rcases List.mem_cons.mp h with h | h
        · exact h ▸ List.mem_cons_self _ _
        · exact List.mem_cons_of_mem _ (ih h)
    | dir e cs =>
      simp only [removeRootFile] at h
      rcases List.mem_cons.mp h with h | h
      · exact h ▸ List.mem_cons_self _ _
      · exact List.mem_cons_of_mem _ (ih h)

theorem mem_file_removeRootFile_ne {fs : List FSEntry} {n m : String}
    (hne : m ≠ n) :
    FSEntry.file n ∈ removeRootFile fs m ↔ FSEntry.file n ∈ fs := by
  induction fs with
  | nil => simp [removeRootFile]
  | cons e rest ih =>
    cases e with
    | file k =>
      simp only [removeRootFile]
      by_cases hk : k = m
      · rw [if_pos hk]
        subst hk
        simp only [List.mem_cons]
        constructor
        · exact Or.inr
        · rintro (h | h)
          · exact absurd (FSEntry.file.injEq _ _ |>.mp h.symm) hne
          · exact h
      · rw [if_neg hk]
        simp only [List.mem_cons, ih]
    | dir e cs =>
      simp only [removeRootFile, List.mem_cons, ih]

theorem rootCount_cons (e : FSEntry) (fs : List FSEntry) (n : String) :
    rootCount (e :: fs) n =
      (if e = FSEntry.file n then 1 else 0) + rootCount fs n := by
  unfold rootCount
  by_cases he : e = FSEntry.file n
  · rw [if_pos he]
    simp [List.filter_cons, he, Nat.add_comm]
  · rw [if_neg he]
    simp [List.filter_cons, he]

theorem rootCount_append (fs ts : List FSEntry) (n : String) :
    rootCount (fs ++ ts) n = rootCount fs n + rootCount ts n := by
  unfold rootCount
  simp [List.filter_append]

theorem mkdirOk_rootCount {fs : List FSEntry} {c : String}
    {fs1 : List FSEntry} (h : mkdirExistOk fs c = Except.ok fs1)
    (n : String) : rootCount fs1 n = rootCount fs n := by
  rcases mkdirExistOk_ok_cases h with rfl | ⟨rfl, _⟩
  · rfl
  · rw [rootCount_append]
    simp [rootCount]

theorem rootCount_eq_zero_iff {fs : List FSEntry} {n : String} :
    rootCount fs n = 0 ↔ FSEntry.file n ∉ fs := by
  unfold rootCount
  simp [List.length_eq_zero, List.filter_eq_nil_iff, decide_eq_true_eq]
  constructor
  · intro h hmem
    exact h _ hmem rfl
  · intro h x hx hxn
    exact h (hxn ▸ hx)

theorem rootCount_addToDir (fs : List FSEntry) (c m n : String) :
    rootCount (addToDir fs c m) n = rootCount fs n := by
  induction fs with
  | nil => rfl
  | cons e rest ih =>
    cases e with
    | file k =>
      simp only [addToDir]
      rw [rootCount_cons, rootCount_cons, ih]
    | dir e cs =>
      by_cases hc : e = c
      · simp only [addToDir, if_pos hc]
        rw [rootCount_cons, rootCount_cons]
        simp
      · simp only [addToDir, if_neg hc]
        rw [rootCount_cons, rootCount_cons, ih]

theorem rootCount_removeRootFile_le (fs : List FSEntry) (m n : String) :
    rootCount (removeRootFile fs m) n ≤ rootCount fs n := by
  induction fs with
  | nil => exact Nat.le_refl _
  | cons e rest ih =>
    cases e with
    | file k =>
      simp only [removeRootFile]
      by_cases hk : k = m
      · rw [if_pos hk, rootCount_cons]
        exact Nat.le_add_left _ _
      · rw [if_neg hk, rootCount_cons, rootCount_cons]
        exact Nat.add_le_add_left ih _
    | dir e cs =>
      simp only [removeRootFile]
      rw [rootCount_cons, rootCount_cons]
      exact Nat.add_le_add_left ih _

theorem not_mem_removeRootFile_self {fs : List FSEntry} {n : String}
    (h : rootCount fs n ≤ 1) : FSEntry.file n ∉ removeRootFile fs n := by
  induction fs with
  | nil => simp [removeRootFile]
  | cons e rest ih =>
    cases e with
    | file m =>
      simp only [removeRootFile]
      by_cases hm : m = n
      · rw [if_pos hm]
        rw [rootCount_cons, if_pos (by rw [hm])] at h
        have : rootCount rest n = 0 := by omega
        exact rootCount_eq_zero_iff.mp this
      · rw [if_neg hm]
        rw [rootCount_cons, if_neg (by simp [hm])] at h
        intro hmem
        rcases List.mem_cons.mp hmem with hh | hh
        · exact hm (FSEntry.file.injEq _ _ |>.mp hh.symm)
        · exact ih (by omega) hh
    | dir e cs =>
      simp only [removeRootFile]
      rw [rootCount_cons, if_neg (by simp)] at h
      intro hmem
      rcases List.mem_cons.mp hmem with hh | hh
      · exact FSEntry.noConfusion hh
      · exact ih (by omega) hh

theorem rootCount_pos_of_mem {fs : List FSEntry} {n : String}
    (h : FSEntry.file n ∈ fs) : 1 ≤ rootCount fs n := by
  by_contra hlt
  exact rootCount_eq_zero_iff.mp (by omega) h

/-! ### Inner-loop and per-entry lemmas -/

theorem eq_none_of_not_isSome {α : Type} {o : Option α}
    (h : ¬ o.isSome = true) : o = none := by
  cases o with
  | none => rfl
  | some v => exact absurd rfl h

theorem innerP3_none {n ext : String} {cats : List (String × List String)}
    (h : findCategory cats ext = none) (st : St) :
    innerP3 n ext cats st =
      { st with logs := st.logs ++ cats.map fun _ => LogLine.skipped n } := by
  induction cats generalizing st with
  | nil => simp [innerP3]
  | cons p rest ih =>
    obtain ⟨cat, exts⟩ := p
    simp only [findCategory] at h
    by_cases hext : ext ∈ exts
    · rw [if_pos hext] at h; exact absurd h (by simp)
    · rw [if_neg hext] at h
      simp only [innerP3, if_neg hext, List.map_cons]
      rw [ih h]
      simp

theorem innerP3_fs_error {n ext : String} {cats : List (String × List String)}
    {cat : String} {e : RunError} {st : St}
    (h : findCategory cats ext = some cat)
    (hmk : mkdirExistOk st.fs cat = Except.error e) :
    (innerP3 n ext cats st).fs = st.fs := by
  induction cats generalizing st with
  | nil => simp [findCategory] at h
  | cons p rest ih =>
    obtain ⟨c, exts⟩ := p
    simp only [findCategory] at h
    by_cases hext : ext ∈ exts
    · rw [if_pos hext] at h
      injection h with h
      subst h
      simp only [innerP3, if_pos hext, hmk]
    · rw [if_neg hext] at h
      simp only [innerP3, if_neg hext]
      exact ih h hmk

theorem innerP3_fault_error {n ext : String}
    {cats : List (String × List String)} {cat : String} {e : RunError}
    {st : St} (h : findCategory cats ext = some cat)
    (hmk : mkdirExistOk st.fs cat = Except.error e) :
    (innerP3 n ext cats st).fault = some e := by
  induction cats generalizing st with
  | nil => simp [findCategory] at h
  | cons p rest ih =>
    obtain ⟨c, exts⟩ := p
    simp only [findCategory] at h
    by_cases hext : ext ∈ exts
    · rw [if_pos hext] at h
      injection h with h
      subst h
      simp only [innerP3, if_pos hext, hmk]
    · rw [if_neg hext] at h
      simp only [innerP3, if_neg hext]
      exact ih h hmk

theorem innerP3_fs_some_ok {n ext : String}
    {cats : List (String × List String)} {cat : String} {fs1 : List FSEntry}
    {st : St} (h : findCategory cats ext = some cat)
    (hmk : mkdirExistOk st.fs cat = Except.ok fs1) :
    (innerP3 n ext cats st).fs = addToDir (removeRootFile fs1 n) cat n := by
  induction cats generalizing st with
  | nil => simp [findCategory] at h
  | cons p rest ih =>
    obtain ⟨c, exts⟩ := p
    simp only [findCategory] at h
    by_cases hext : ext ∈ exts
    · rw [if_pos hext] at h
      injection h with h
      subst h
      simp only [innerP3, if_pos hext, hmk]
    · rw [if_neg hext] at h
      simp only [innerP3, if_neg hext]
      exact ih h hmk

theorem innerP3_logs_mono {n ext : String}
    {cats : List (String × List String)} {x : LogLine} {st : St}
    (h : x ∈ st.logs) : x ∈ (innerP3 n ext cats st).logs := by
  induction cats generalizing st with
  | nil => exact h
  | cons p rest ih =>
    obtain ⟨c, exts⟩ := p
    simp only [innerP3]
    by_cases hext : ext ∈ exts
    · rw [if_pos hext]
      cases hmk : mkdirExistOk st.fs c with
      | error e => exact h
      | ok fs1 =>
        show x ∈ st.logs ++ [LogLine.moved n c]
        exact List.mem_append.mpr (Or.inl h)
    · rw [if_neg hext]
      exact ih (by simp only [List.mem_append]; exact Or.inl h)

theorem innerP3_logs_sub {n ext : String}
    {cats : List (String × List String)} {x : LogLine} {st : St}
    (h : x ∈ (innerP3 n ext cats st).logs) :
    x ∈ st.logs ∨ x = LogLine.skipped n ∨ ∃ c, x = LogLine.moved n c := by
  induction cats generalizing st with
  | nil => exact Or.inl h
  | cons p rest ih =>
    obtain ⟨c, exts⟩ := p
    simp only [innerP3] at h
    by_cases hext : ext ∈ exts
    · rw [if_pos hext] at h
      cases hmk : mkdirExistOk st.fs c with
      | error e =>
        rw [hmk] at h
        exact Or.inl h
      | ok fs1 =>
        rw [hmk] at h
        simp only [List.mem_append, List.mem_singleton] at h
        rcases h with h | h
        · exact Or.inl h
        · exact Or.inr (Or.inr ⟨c, h⟩)
    · rw [if_neg hext] at h
      rcases ih h with h | h
      · simp only [List.mem_append, List.mem_singleton] at h
        rcases h with h | h
        · exact Or.inl h
        · exact Or.inr (Or.inl h)
      · exact Or.inr h

theorem processEntryP3_stuck {cats : List (String × List String)} {st : St}
    {e : FSEntry} (hf : st.fault.isSome = true) :
    processEntryP3 cats st e = st := by
  unfold processEntryP3
  rw [if_pos hf]

theorem processEntryP3_dir (cats : List (String × List String)) (st : St)
    (d : String) (cs : List String) :
    processEntryP3 cats st (FSEntry.dir d cs) = st := by
  unfold processEntryP3
  split
  · rfl
  · rfl

theorem processEntryP3_file_eq {cats : List (String × List String)}
    {m : String} {st : St} (hf : st.fault = none) :
    processEntryP3 cats st (FSEntry.file m) =
      if (innerP3 m (pyLower (pySuffix m)) cats st).fault.isSome
      then innerP3 m (pyLower (pySuffix m)) cats st
      else { innerP3 m (pyLower (pySuffix m)) cats st with
             logs := (innerP3 m (pyLower (pySuffix m)) cats st).logs
               ++ [LogLine.completed]
             console := (innerP3 m (pyLower (pySuffix m)) cats st).console
               ++ [ConsoleLine.completedMsg] } := by
  unfold processEntryP3
  rw [hf]
  rfl

theorem processEntryP3_fs_file {cats : List (String × List String)}
    {m : String} {st : St} (hf : st.fault = none) :
    (processEntryP3 cats st (FSEntry.file m)).fs =
      (innerP3 m (pyLower (pySuffix m)) cats st).fs := by
  rw [processEntryP3_file_eq hf]
  by_cases h : (innerP3 m (pyLower (pySuffix m)) cats st).fault.isSome
  · rw [if_pos h]
  · rw [if_neg h]

theorem processEntryP3_file_no_match {cats : List (String × List String)}
    {m : String} {st : St} (hf : st.fault = none)
    (h : findCategory cats (pyLower (pySuffix m)) = none) :
    processEntryP3 cats st (FSEntry.file m) =
      { st with
        logs := st.logs ++ (cats.map fun _ => LogLine.skipped m)
          ++ [LogLine.completed]
        console := st.console ++ [ConsoleLine.completedMsg] } := by
  rw [processEntryP3_file_eq hf, innerP3_none h, if_neg ?_]
  simp [hf]

theorem processEntryP3_file_some_ok {cats : List (String × List String)}
    {m cat : String} {st : St} (hf : st.fault = none)
    (h : findCategory cats (pyLower (pySuffix m)) = some cat)
    (hok : (processEntryP3 cats st (FSEntry.file m)).fault = none) :
    ∃ fs1, mkdirExistOk st.fs cat = Except.ok fs1 ∧
      (processEntryP3 cats st (FSEntry.file m)).fs =
        addToDir (removeRootFile fs1 m) cat m := by
  cases hmk : mkdirExistOk st.fs cat with
  | error e =>
    exfalso
    have hfe : (innerP3 m (pyLower (pySuffix m)) cats st).fault = some e :=
      innerP3_fault_error h hmk
    rw [processEntryP3_file_eq hf, if_pos (by rw [hfe]; rfl), hfe] at hok
    exact Option.noConfusion hok
  | ok fs1 =>
    refine ⟨fs1, rfl, ?_⟩
    rw [processEntryP3_fs_file hf]
    exact innerP3_fs_some_ok h hmk

theorem innerP3_fs_cases (n ext : String) (cats : List (String × List String))
    (st : St) :
    (innerP3 n ext cats st).fs = st.fs ∨
      ∃ cat fs1, mkdirExistOk st.fs cat = Except.ok fs1 ∧
        (innerP3 n ext cats st).fs = addToDir (removeRootFile fs1 n) cat n := by
  cases h : findCategory cats ext with
  | none =>
    left
    rw [innerP3_none h]
  | some cat =>
    cases hmk : mkdirExistOk st.fs cat with
    | error e => exact Or.inl (innerP3_fs_error h hmk)
    | ok fs1 => exact Or.inr ⟨cat, fs1, hmk, innerP3_fs_some_ok h hmk⟩

theorem processEntryP3_fs_cases (cats : List (String × List String)) (st : St)
    (m : String) :
    (processEntryP3 cats st (FSEntry.file m)).fs = st.fs ∨
      ∃ cat fs1, mkdirExistOk st.fs cat = Except.ok fs1 ∧
        (processEntryP3 cats st (FSEntry.file m)).fs =
          addToDir (removeRootFile fs1 m) cat m := by
  by_cases hf : st.fault.isSome
  · left
    rw [processEntryP3_stuck hf]
  · rw [processEntryP3_fs_file (eq_none_of_not_isSome hf)]
    exact innerP3_fs_cases m (pyLower (pySuffix m)) cats st

theorem processEntryP3_logs_mono {cats : List (String × List String)}
    {x : LogLine} {st : St} (h : x ∈ st.logs) (e : FSEntry) :
    x ∈ (processEntryP3 cats st e).logs := by
  by_cases hf : st.fault.isSome
  · rw [processEntryP3_stuck hf]; exact h
  · cases e with
    | dir d cs => rw [processEntryP3_dir]; exact h
    | file m =>
      rw [processEntryP3_file_eq (eq_none_of_not_isSome hf)]
      by_cases h2 : (innerP3 m (pyLower (pySuffix m)) cats st).fault.isSome
      · rw [if_pos h2]
        exact innerP3_logs_mono h
      · rw [if_neg h2]
        show x ∈ (innerP3 m (pyLower (pySuffix m)) cats st).logs
          ++ [LogLine.completed]
        exact List.mem_append.mpr (Or.inl (innerP3_logs_mono h))

theorem processEntryP3_logs_sub {cats : List (String × List String)}
    {x : LogLine} {st : St} {e : FSEntry}
    (h : x ∈ (processEntryP3 cats st e).logs) :
    x ∈ st.logs ∨ x = LogLine.completed ∨
      ∃ m, e = FSEntry.file m ∧
        (x = LogLine.skipped m ∨ ∃ c, x = LogLine.moved m c) := by
  by_cases hf : st.fault.isSome
  · rw [processEntryP3_stuck hf] at h
    exact Or.inl h
  · cases e with
    | dir d cs =>
      rw [processEntryP3_dir] at h
      exact Or.inl h
    | file m =>
      rw [processEntryP3_file_eq (eq_none_of_not_isSome hf)] at h
      by_cases h2 : (innerP3 m (pyLower (pySuffix m)) cats st).fault.isSome
      · rw [if_pos h2] at h
        rcases innerP3_logs_sub h with h | h
        · exact Or.inl h
        · exact Or.inr (Or.inr ⟨m, rfl, h⟩)
      · rw [if_neg h2] at h
        have h' : x ∈ (innerP3 m (pyLower (pySuffix m)) cats st).logs
            ++ [LogLine.completed] := h
        simp only [List.mem_append, List.mem_singleton] at h'
        rcases h' with h' | h'
        · rcases innerP3_logs_sub h' with h'' | h''
          · exact Or.inl h''
          · exact Or.inr (Or.inr ⟨m, rfl, h''⟩)
        · exact Or.inr (Or.inl h')

theorem processEntryP3_fault_none {cats : List (String × List String)}
    {st : St} {e : FSEntry}
    (h : (processEntryP3 cats st e).fault = none) : st.fault = none := by
  by_cases hf : st.fault.isSome
  · rw [processEntryP3_stuck hf] at h
    exact h
  · exact eq_none_of_not_isSome hf

theorem foldl_fault_none {cats : List (String × List String)}
    {l : List FSEntry} {st : St}
    (h : (l.foldl (processEntryP3 cats) st).fault = none) :
    st.fault = none := by
  induction l generalizing st with
  | nil => exact h
  | cons e rest ih =>
    rw [List.foldl_cons] at h
    exact processEntryP3_fault_none (ih h)

theorem foldl_preserve {σ : Type} (P : σ → Prop) (f : σ → FSEntry → σ)
    (l : List FSEntry) (h : ∀ st e, e ∈ l → P st → P (f st e)) (st : σ)
    (hst : P st) : P (l.foldl f st) := by
  induction l generalizing st with
  | nil => exact hst
  | cons e rest ih =>
    exact ih (fun st' e' he' hp => h st' e' (List.mem_cons_of_mem _ he') hp)
      (f st e) (h st e (List.mem_cons_self _ _) hst)

/-- The final snapshot of a run that passes the existence checks, as a
fold. -/
theorem organize_files_with_fs (cats : List (String × List String))
    (fs : List FSEntry) :
    (organize_files_with cats true true fs).fs =
      (fs.foldl (processEntryP3 cats)
        ⟨fs, [], [ConsoleLine.organizing], none⟩).fs := rfl

/-- The log of a run that passes the existence checks, as a fold. -/
theorem organize_files_with_logs (cats : List (String × List String))
    (fs : List FSEntry) :
    (organize_files_with cats true true fs).logs =
      (fs.foldl (processEntryP3 cats)
        ⟨fs, [], [ConsoleLine.organizing], none⟩).logs := rfl

/-- The fault of a run that passes the existence checks, as a fold. -/
theorem organize_files_with_fault (cats : List (String × List String))
    (fs : List FSEntry) :
    (organize_files_with cats true true fs).fault =
      (fs.foldl (processEntryP3 cats)
        ⟨fs, [], [ConsoleLine.organizing], none⟩).fault := rfl

/-- Processing an entry other than `file n` neither removes the root file
`n` nor duplicates it. -/
theorem step_preserve_root {cats : List (String × List String)} {n : String}
    {st : St} {e : FSEntry} (hne : e ≠ FSEntry.file n)
    (h1 : FSEntry.file n ∈ st.fs) (h2 : rootCount st.fs n ≤ 1) :
    FSEntry.file n ∈ (processEntryP3 cats st e).fs ∧
      rootCount (processEntryP3 cats st e).fs n ≤ 1 := by
  cases e with
  | dir d cs => rw [processEntryP3_dir]; exact ⟨h1, h2⟩
  | file m =>
    have hmn : m ≠ n := fun h => hne (by rw [h])
    rcases processEntryP3_fs_cases cats st m with hfs | ⟨cat, fs1, hmk, hfs⟩
    · rw [hfs]; exact ⟨h1, h2⟩
    · rw [hfs]
      constructor
      · exact (mem_file_addToDir _ _).mpr
          ((mem_file_removeRootFile_ne hmn).mpr
            ((mkdirOk_mem_file hmk n).mpr h1))
      · rw [rootCount_addToDir]
        calc rootCount (removeRootFile fs1 m) n
            ≤ rootCount fs1 n := rootCount_removeRootFile_le _ _ _
          _ = rootCount st.fs n := mkdirOk_rootCount hmk n
          _ ≤ 1 := h2

/-- Once file `n` sits inside the subdirectory `cat` and no longer at the
root, processing any further entry other than `file n` keeps it there. -/
theorem step_preserve_moved {cats : List (String × List String)}
    {n cat : String} {st : St} {e : FSEntry} (hne : e ≠ FSEntry.file n)
    (h1 : FSEntry.file n ∉ st.fs)
    (h2 : ∃ cs, dirContents st.fs cat = some cs ∧ n ∈ cs) :
    FSEntry.file n ∉ (processEntryP3 cats st e).fs ∧
      ∃ cs, dirContents (processEntryP3 cats st e).fs cat = some cs ∧
        n ∈ cs := by
  cases e with
  | dir d cs => rw [processEntryP3_dir]; exact ⟨h1, h2⟩
  | file m =>
    rcases processEntryP3_fs_cases cats st m with hfs | ⟨cat', fs1, hmk, hfs⟩
    · rw [hfs]; exact ⟨h1, h2⟩
    · rw [hfs]
      obtain ⟨cs, hcs, hncs⟩ := h2
      constructor
      · intro hmem
        exact h1 ((mkdirOk_mem_file hmk n).mp
          (mem_removeRootFile_sub ((mem_file_addToDir _ _).mp hmem)))
      · have hcs1 := mkdirOk_dirContents_preserve hmk hcs
        have hcs2 : dirContents (removeRootFile fs1 m) cat = some cs := by
          rw [dirContents_removeRootFile]; exact hcs1
        rcases dirContents_addToDir hcs2 cat' m with h | h
        · exact ⟨cs, h, hncs⟩
        · exact ⟨cs ++ [m], h, List.mem_append.mpr (Or.inl hncs)⟩

/-- C1 (amended): provided the run raises no unhandled fault, every file
directly under the target directory whose lower-cased extension appears
in the category table ends up at `target/<category>/<original-filename>`
(original name unchanged) and no longer exists at its original root
position, after one run of `organize_files` on an existing directory. -/
theorem C1_matched_file_relocated (fs : List FSEntry) (n cat : String)
    (hmem : FSEntry.file n ∈ fs) (hcount : rootCount fs n ≤ 1)
    (hcat : classify n = some cat)
    (hfault : (organize_files true true fs).fault = none) :
    FSEntry.file n ∉ (organize_files true true fs).fs ∧
      ∃ cs, dirContents (organize_files true true fs).fs cat = some cs ∧
        n ∈ cs := by
  obtain ⟨l₁, l₂, rfl⟩ := List.append_of_mem hmem
  have hcnt := hcount
  rw [rootCount_append, rootCount_cons, if_pos rfl] at hcnt
  have hnotl₁ : FSEntry.file n ∉ l₁ := rootCount_eq_zero_iff.mp (by omega)
  have hnotl₂ : FSEntry.file n ∉ l₂ := rootCount_eq_zero_iff.mp (by omega)
  unfold classify at hcat
  rw [organize_files, organize_files_with_fault, List.foldl_append,
    List.foldl_cons] at hfault
  rw [organize_files, organize_files_with_fs, List.foldl_append,
    List.foldl_cons]
  set init : St :=
    ⟨l₁ ++ FSEntry.file n :: l₂, [], [ConsoleLine.organizing], none⟩
    with hinit
  set st₁ : St := l₁.foldl (processEntryP3 categories) init with hst₁
  set st₂ : St := processEntryP3 categories st₁ (FSEntry.file n) with hst₂
  have hf₂ : st₂.fault = none := foldl_fault_none hfault
  have hf₁ : st₁.fault = none := processEntryP3_fault_none (hst₂ ▸ hf₂)
  have h1 : FSEntry.file n ∈ st₁.fs ∧ rootCount st₁.fs n ≤ 1 := by
    rw [hst₁]
    refine foldl_preserve
      (fun st => FSEntry.file n ∈ st.fs ∧ rootCount st.fs n ≤ 1)
      (processEntryP3 categories) l₁ ?_ init ?_
    · intro st e he hp
      exact step_preserve_root (fun hh => hnotl₁ (hh ▸ he)) hp.1 hp.2
    · constructor
      · rw [hinit]
        exact List.mem_append.mpr (Or.inr (List.mem_cons_self _ _))
      · exact hcount
  have h2 : FSEntry.file n ∉ st₂.fs ∧
      ∃ cs, dirContents st₂.fs cat = some cs ∧ n ∈ cs := by
    obtain ⟨fs1, hmk, hfs⟩ :=
      processEntryP3_file_some_ok hf₁ hcat (hst₂ ▸ hf₂)
    rw [hst₂, hfs]
    constructor
    · intro hmem2
      exact not_mem_removeRootFile_self
        (by rw [mkdirOk_rootCount hmk]; exact h1.2)
        ((mem_file_addToDir _ _).mp hmem2)
    · obtain ⟨l, hl⟩ := mkdirOk_dirContents_self hmk
      have hl2 : dirContents (removeRootFile fs1 n) cat = some l := by
        rw [dirContents_removeRootFile]; exact hl
      exact ⟨l ++ [n], dirContents_addToDir_self hl2 n,
        List.mem_append.mpr (Or.inr (List.mem_singleton.mpr rfl))⟩
  refine foldl_preserve
    (fun st => FSEntry.file n ∉ st.fs ∧
      ∃ cs, dirContents st.fs cat = some cs ∧ n ∈ cs) _ l₂ ?_ st₂ h2
  intro st e he hp
  exact step_preserve_moved (fun hh => hnotl₂ (hh ▸ he)) hp.1 hp.2

/-- C1 (counterexample): when a root FILE bears a matched category's name,
`mkdir(exist_ok=True)` raises an uncaught `FileExistsError` and the run
crashes before any move: `b.png` matches Images yet stays at the root,
and no `Images` directory is created. -/
theorem C1_counterexample :
    classify "b.png" = some "Images" ∧
    (organize_files true true
        [FSEntry.file "Images", FSEntry.file "b.png"]).fault =
      some RunError.fileExists ∧
    FSEntry.file "b.png" ∈ (organize_files true true
        [FSEntry.file "Images", FSEntry.file "b.png"]).fs ∧
    dirContents (organize_files true true
        [FSEntry.file "Images", FSEntry.file "b.png"]).fs "Images" =
      none := by
  decide

/-- Processing an entry other than `file n` adds no `Moved` log line about
file `n`. -/
theorem step_preserve_no_moved {cats : List (String × List String)}
    {n : String} {st : St} {e : FSEntry} (hne : e ≠ FSEntry.file n)
    (h : ∀ c, LogLine.moved n c ∉ st.logs) :
    ∀ c, LogLine.moved n c ∉ (processEntryP3 cats st e).logs := by
  intro c hmem
  rcases processEntryP3_logs_sub hmem with h1 | h1 | ⟨m, hm, h1⟩
  · exact h c h1
  · exact LogLine.noConfusion h1
  · rcases h1 with h1 | ⟨c', h1⟩
    · exact LogLine.noConfusion h1
    · injection h1 with hnm _
      exact hne (by rw [hm, hnm])

/-- A table whose extension entries all begin with `'.'` never matches the
empty extension. -/
theorem findCategory_empty_ext {cats : List (String × List String)}
    (h : cats.all
      (fun p => p.2.all fun e => decide (e.data.head? = some '.')) = true) :
    findCategory cats "" = none := by
  induction cats with
  | nil => rfl
  | cons p rest ih =>
    obtain ⟨c, exts⟩ := p
    simp only [List.all_cons, Bool.and_eq_true] at h
    simp only [findCategory]
    rw [if_neg ?_]
    · exact ih h.2
    · intro hmem
      have h1 := List.all_eq_true.mp h.1 _ hmem
      exact absurd (of_decide_eq_true h1) (by decide)

/-- The contents of a subdirectory only ever grow during a run: files may
be appended into it (when its name is a matched category), but nothing is
removed or renamed — also across a crashing iteration, which leaves the
snapshot untouched. -/
theorem step_preserve_dirContents {cats : List (String × List String)}
    {d : String} {cs : List String} {st : St} (e : FSEntry)
    (h : ∃ extra, dirContents st.fs d = some (cs ++ extra)) :
    ∃ extra, dirContents (processEntryP3 cats st e).fs d =
      some (cs ++ extra) := by
  obtain ⟨extra, hdc⟩ := h
  cases e with
  | dir d' cs' => rw [processEntryP3_dir]; exact ⟨extra, hdc⟩
  | file m =>
    rcases processEntryP3_fs_cases cats st m with hfs | ⟨cat, fs1, hmk, hfs⟩
    · rw [hfs]; exact ⟨extra, hdc⟩
    · rw [hfs]
      have h1 := mkdirOk_dirContents_preserve hmk hdc
      have h2 : dirContents (removeRootFile fs1 m) d =
          some (cs ++ extra) := by rw [dirContents_removeRootFile]; exact h1
      rcases dirContents_addToDir h2 cat m with h3 | h3
      · exact ⟨extra, h3⟩
      · exact ⟨extra ++ [m], by rw [← List.append_assoc]; exact h3⟩

/-- C5 (amended): provided the run raises no unhandled fault, a file
directly under the target directory whose lower-cased extension is absent
from the category table still exists at its original root position after
the run, and a `Skipped` log line records its outcome. -/
theorem C5_unmatched_file_untouched (fs : List FSEntry) (n : String)
    (hmem : FSEntry.file n ∈ fs) (hcount : rootCount fs n ≤ 1)
    (hcat : classify n = none)
    (hfault : (organize_files true true fs).fault = none) :
    FSEntry.file n ∈ (organize_files true true fs).fs ∧
      LogLine.skipped n ∈ (organize_files true true fs).logs := by
  obtain ⟨l₁, l₂, rfl⟩ := List.append_of_mem hmem
  have hcnt := hcount
  rw [rootCount_append, rootCount_cons, if_pos rfl] at hcnt
  have hnotl₁ : FSEntry.file n ∉ l₁ := rootCount_eq_zero_iff.mp (by omega)
  have hnotl₂ : FSEntry.file n ∉ l₂ := rootCount_eq_zero_iff.mp (by omega)
  unfold classify at hcat
  rw [organize_files, organize_files_with_fault, List.foldl_append,
    List.foldl_cons] at hfault
  rw [organize_files, organize_files_with_fs, organize_files_with_logs,
    List.foldl_append, List.foldl_cons]
  set init : St :=
    ⟨l₁ ++ FSEntry.file n :: l₂, [], [ConsoleLine.organizing], none⟩
    with hinit
  set st₁ : St := l₁.foldl (processEntryP3 categories) init with hst₁
  set st₂ : St := processEntryP3 categories st₁ (FSEntry.file n) with hst₂
  have hf₂ : st₂.fault = none := foldl_fault_none hfault
  have hf₁ : st₁.fault = none := processEntryP3_fault_none (hst₂ ▸ hf₂)
  have h1 : FSEntry.file n ∈ st₁.fs ∧ rootCount st₁.fs n ≤ 1 := by
    rw [hst₁]
    refine foldl_preserve
      (fun st => FSEntry.file n ∈ st.fs ∧ rootCount st.fs n ≤ 1)
      (processEntryP3 categories) l₁ ?_ init ?_
    · intro st e he hp
      exact step_preserve_root (fun hh => hnotl₁ (hh ▸ he)) hp.1 hp.2
    · constructor
      · rw [hinit]
        exact List.mem_append.mpr (Or.inr (List.mem_cons_self _ _))
      · exact hcount
  have h2 : (FSEntry.file n ∈ st₂.fs ∧ rootCount st₂.fs n ≤ 1) ∧
      LogLine.skipped n ∈ st₂.logs := by
    rw [hst₂, processEntryP3_file_no_match hf₁ hcat]
    refine ⟨⟨h1.1, h1.2⟩, ?_⟩
    have hskip : LogLine.skipped n ∈
        categories.map fun _ => LogLine.skipped n := by
      simp [categories]
    show LogLine.skipped n ∈
      st₁.logs ++ (categories.map fun _ => LogLine.skipped n)
        ++ [LogLine.completed]
    exact List.mem_append.mpr
      (Or.inl (List.mem_append.mpr (Or.inr hskip)))
  have h3 := foldl_preserve
    (fun st => (FSEntry.file n ∈ st.fs ∧ rootCount st.fs n ≤ 1) ∧
      LogLine.skipped n ∈ st.logs)
    (processEntryP3 categories) l₂ ?_ st₂ h2
  · exact ⟨h3.1.1, h3.2⟩
  · intro st e he hp
    exact ⟨step_preserve_root (fun hh => hnotl₂ (hh ▸ he)) hp.1.1 hp.1.2,
      processEntryP3_logs_mono hp.2 e⟩

/-- C5 (counterexample): the run crashes at `b.png` (root file `Images`
bears the matched category's name) before `c.xyz` is ever processed, so
although `c.xyz` matches no category and stays in place, no `Skipped` log
line records it. -/
theorem C5_counterexample :
    classify "c.xyz" = none ∧
    (organize_files true true [FSEntry.file "Images", FSEntry.file "b.png",
        FSEntry.file "c.xyz"]).fault = some RunError.fileExists ∧
    FSEntry.file "c.xyz" ∈ (organize_files true true
        [FSEntry.file "Images", FSEntry.file "b.png",
          FSEntry.file "c.xyz"]).fs ∧
    LogLine.skipped "c.xyz" ∉ (organize_files true true
        [FSEntry.file "Images", FSEntry.file "b.png",
          FSEntry.file "c.xyz"]).logs := by
  decide

/-- C10 (amended): a file whose name yields the empty extension under
suffix extraction (no dot, or a leading-dot name such as `.bashrc`) never
matches any category of a non-empty table whose extension entries all
begin with a dot: provided the run raises no unhandled fault, it stays at
its original root position, its outcome is recorded as skipped, and no
`Moved` log line is written for it. -/
theorem C10_empty_extension_never_matches (cats : List (String × List String))
    (hne : cats ≠ [])
    (hdot : cats.all
      (fun p => p.2.all fun e => decide (e.data.head? = some '.')) = true)
    (fs : List FSEntry) (n : String) (hsuf : pySuffix n = "")
    (hmem : FSEntry.file n ∈ fs) (hcount : rootCount fs n ≤ 1)
    (hfault : (organize_files_with cats true true fs).fault = none) :
    findCategory cats (pyLower (pySuffix n)) = none ∧
      FSEntry.file n ∈ (organize_files_with cats true true fs).fs ∧
      LogLine.skipped n ∈ (organize_files_with cats true true fs).logs ∧
      ∀ c, LogLine.moved n c ∉
        (organize_files_with cats true true fs).logs := by
  have hfc : findCategory cats (pyLower (pySuffix n)) = none := by
    rw [hsuf]
    exact findCategory_empty_ext hdot
  refine ⟨hfc, ?_⟩
  obtain ⟨l₁, l₂, rfl⟩ := List.append_of_mem hmem
  have hcnt := hcount
  rw [rootCount_append, rootCount_cons, if_pos rfl] at hcnt
  have hnotl₁ : FSEntry.file n ∉ l₁ := rootCount_eq_zero_iff.mp (by omega)
  have hnotl₂ : FSEntry.file n ∉ l₂ := rootCount_eq_zero_iff.mp (by omega)
  rw [organize_files_with_fault, List.foldl_append, List.foldl_cons]
    at hfault
  rw [organize_files_with_fs, organize_files_with_logs,
    List.foldl_append, List.foldl_cons]
  set init : St :=
    ⟨l₁ ++ FSEntry.file n :: l₂, [], [ConsoleLine.organizing], none⟩
    with hinit
  set st₁ : St := l₁.foldl (processEntryP3 cats) init with hst₁
  set st₂ : St := processEntryP3 cats st₁ (FSEntry.file n) with hst₂
  have hf₂ : st₂.fault = none := foldl_fault_none hfault
  have hf₁ : st₁.fault = none := processEntryP3_fault_none (hst₂ ▸ hf₂)
  have h1 : (FSEntry.file n ∈ st₁.fs ∧ rootCount st₁.fs n ≤ 1) ∧
      ∀ c, LogLine.moved n c ∉ st₁.logs := by
    rw [hst₁]
    refine foldl_preserve
      (fun st => (FSEntry.file n ∈ st.fs ∧ rootCount st.fs n ≤ 1) ∧
        ∀ c, LogLine.moved n c ∉ st.logs)
      (processEntryP3 cats) l₁ ?_ init ?_
    · intro st e he hp
      exact ⟨step_preserve_root (fun hh => hnotl₁ (hh ▸ he)) hp.1.1 hp.1.2,
        step_preserve_no_moved (fun hh => hnotl₁ (hh ▸ he)) hp.2⟩
    · refine ⟨⟨?_, hcount⟩, ?_⟩
      · rw [hinit]
        exact List.mem_append.mpr (Or.inr (List.mem_cons_self _ _))
      · intro c hc
        rw [hinit] at hc
        exact List.not_mem_nil _ hc
  have h2 : ((FSEntry.file n ∈ st₂.fs ∧ rootCount st₂.fs n ≤ 1) ∧
      LogLine.skipped n ∈ st₂.logs) ∧
      ∀ c, LogLine.moved n c ∉ st₂.logs := by
    rw [hst₂, processEntryP3_file_no_match hf₁ hfc]
    obtain ⟨p, hp⟩ := List.exists_mem_of_ne_nil cats hne
    have hskip : LogLine.skipped n ∈ cats.map fun _ => LogLine.skipped n :=
      List.mem_map.mpr ⟨p, hp, rfl⟩
    refine ⟨⟨⟨h1.1.1, h1.1.2⟩, ?_⟩, ?_⟩
    · show LogLine.skipped n ∈
        st₁.logs ++ (cats.map fun _ => LogLine.skipped n)
          ++ [LogLine.completed]
      exact List.mem_append.mpr
        (Or.inl (List.mem_append.mpr (Or.inr hskip)))
    · intro c hc
      have hc' : LogLine.moved n c ∈
          st₁.logs ++ (cats.map fun _ => LogLine.skipped n)
            ++ [LogLine.completed] := hc
      rcases List.mem_append.mp hc' with hc'' | hc''
      · rcases List.mem_append.mp hc'' with hc3 | hc3
        · exact h1.2 c hc3
        · rcases List.mem_map.mp hc3 with ⟨_, _, hx⟩
          exact LogLine.noConfusion hx
      · exact LogLine.noConfusion (List.mem_singleton.mp hc'')
  have h3 := foldl_preserve
    (fun st => ((FSEntry.file n ∈ st.fs ∧ rootCount st.fs n ≤ 1) ∧
      LogLine.skipped n ∈ st.logs) ∧
      ∀ c, LogLine.moved n c ∉ st.logs)
    (processEntryP3 cats) l₂ ?_ st₂ h2
  · exact ⟨h3.1.1.1, h3.1.2, h3.2⟩
  · intro st e he hp
    exact ⟨⟨step_preserve_root (fun hh => hnotl₂ (hh ▸ he))
        hp.1.1.1 hp.1.1.2,
      processEntryP3_logs_mono hp.1.2 e⟩,
      step_preserve_no_moved (fun hh => hnotl₂ (hh ▸ he)) hp.2⟩

/-- C10 (counterexample): two failure modes of the claim as stated.  In a
run that crashes earlier (root file `Images` plus `b.png`), the dotfile
`.bashrc` is never reached, so no `Skipped` record is written for it; and
with an EMPTY category table — vacuously all-dot — the loop body logs
nothing for the file, again leaving no skip record. -/
theorem C10_counterexample :
    pySuffix ".bashrc" = "" ∧
    (organize_files true true [FSEntry.file "Images", FSEntry.file "b.png",
        FSEntry.file ".bashrc"]).fault = some RunError.fileExists ∧
    LogLine.skipped ".bashrc" ∉ (organize_files true true
        [FSEntry.file "Images", FSEntry.file "b.png",
          FSEntry.file ".bashrc"]).logs ∧
    (organize_files_with [] true true [FSEntry.file ".bashrc"]).fault =
      none ∧
    (organize_files_with [] true true [FSEntry.file ".bashrc"]).logs =
      [LogLine.completed] := by
  decide

/-- Witness for C10 (amended): `.bashrc` has an empty suffix, matches no
category of the Part3 table, stays at the root, is logged as skipped, and
gets no `Moved` log line. -/
theorem C10_witness :
    categories ≠ [] ∧
    categories.all
        (fun p => p.2.all fun e => decide (e.data.head? = some '.')) = true ∧
    pySuffix ".bashrc" = "" ∧
    FSEntry.file ".bashrc" ∈ [FSEntry.file ".bashrc"] ∧
    rootCount [FSEntry.file ".bashrc"] ".bashrc" ≤ 1 ∧
    (organize_files_with categories true true
        [FSEntry.file ".bashrc"]).fault = none ∧
    (findCategory categories (pyLower (pySuffix ".bashrc")) = none ∧
      FSEntry.file ".bashrc" ∈
        (organize_files_with categories true true
          [FSEntry.file ".bashrc"]).fs ∧
      LogLine.skipped ".bashrc" ∈
        (organize_files_with categories true true
          [FSEntry.file ".bashrc"]).logs ∧
      ∀ c, LogLine.moved ".bashrc" c ∉
        (organize_files_with categories true true
          [FSEntry.file ".bashrc"]).logs) :=
  ⟨by decide, by decide, by decide, by decide, by decide, by decide,
    C10_empty_extension_never_matches categories (by decide) (by decide)
      [FSEntry.file ".bashrc"] ".bashrc" (by decide) (by decide) (by decide)
      (by decide)⟩

/-- Witness for C1 (amended): `a.txt` is relocated into `Documents` in a
fault-free run. -/
theorem C1_witness :
    FSEntry.file "a.txt" ∈ [FSEntry.file "a.txt"] ∧
    rootCount [FSEntry.file "a.txt"] "a.txt" ≤ 1 ∧
    classify "a.txt" = some "Documents" ∧
    (organize_files true true [FSEntry.file "a.txt"]).fault = none ∧
    (FSEntry.file "a.txt" ∉
        (organize_files true true [FSEntry.file "a.txt"]).fs ∧
      ∃ cs, dirContents (organize_files true true [FSEntry.file "a.txt"]).fs
          "Documents" = some cs ∧ "a.txt" ∈ cs) :=
  ⟨by decide, by decide, by decide, by decide,
    C1_matched_file_relocated [FSEntry.file "a.txt"] "a.txt" "Documents"
      (by decide) (by decide) (by decide) (by decide)⟩

/-- Witness for C5 (amended): `c.xyz` matches no category, stays put, is
logged as skipped, in a fault-free run. -/
theorem C5_witness :
    FSEntry.file "c.xyz" ∈ [FSEntry.file "c.xyz"] ∧
    rootCount [FSEntry.file "c.xyz"] "c.xyz" ≤ 1 ∧
    classify "c.xyz" = none ∧
    (organize_files true true [FSEntry.file "c.xyz"]).fault = none ∧
    (FSEntry.file "c.xyz" ∈
        (organize_files true true [FSEntry.file "c.xyz"]).fs ∧
      LogLine.skipped "c.xyz" ∈
        (organize_files true true [FSEntry.file "c.xyz"]).logs) :=
  ⟨by decide, by decide, by decide, by decide,
    C5_unmatched_file_untouched [FSEntry.file "c.xyz"] "c.xyz"
      (by decide) (by decide) (by decide) (by decide)⟩

/-- C2 (counterexample): on a missing path the condition IS reported and
nothing is mutated, but `main` then finishes normally — the process exit
status is 0, not non-zero as the claim states. -/
theorem C2_counterexample :
    (organize_files false true [FSEntry.file "a.txt"]).logs =
        [LogLine.errorNoFolder] ∧
    (organize_files false true [FSEntry.file "a.txt"]).console =
        [ConsoleLine.folderNotExist] ∧
    (organize_files false true [FSEntry.file "a.txt"]).fs =
        [FSEntry.file "a.txt"] ∧
    (main ["file_organizer.py", "/no/such/path"] false true
        [FSEntry.file "a.txt"]).exitCode = 0 := by
  decide

/-- C2 (amended): when the supplied path does not exist, the run raises no
unhandled fault, reports the condition to console and log, performs zero
filesystem mutations — and the calling entry point completes normally with
exit status 0 (it never propagates a failure status for this condition). -/
theorem C2_path_not_found (fs : List FSEntry) (isDirectory : Bool)
    (argv : List String) (hargv : 2 ≤ argv.length) :
    organize_files false isDirectory fs =
      { fs := fs, logs := [LogLine.errorNoFolder]
        console := [ConsoleLine.folderNotExist], fault := none } ∧
    (main argv false isDirectory fs).exitCode = 0 ∧
    (main argv false isDirectory fs).fault = none := by
  refine ⟨rfl, ?_, ?_⟩ <;>
  · unfold main
    rw [if_neg (by omega)]
    rfl

/-- Witness for C2 (amended). -/
theorem C2_witness :
    2 ≤ (["file_organizer.py", "/no/such/path"] : List String).length ∧
    (organize_files false true [FSEntry.file "a.txt"] =
      { fs := [FSEntry.file "a.txt"], logs := [LogLine.errorNoFolder]
        console := [ConsoleLine.folderNotExist], fault := none } ∧
    (main ["file_organizer.py", "/no/such/path"] false true
        [FSEntry.file "a.txt"]).exitCode = 0 ∧
    (main ["file_organizer.py", "/no/such/path"] false true
        [FSEntry.file "a.txt"]).fault = none) :=
  ⟨by decide, C2_path_not_found [FSEntry.file "a.txt"] true
    ["file_organizer.py", "/no/such/path"] (by decide)⟩

/-- C3 (code bug): on the spec §8 scenario the Part3 source writes two
`Moved` log lines but SIX `Skipped` lines — the `if not file_moved` check
sits inside the category loop (12-space indent, line 79), so each
non-matching category of a not-yet-moved file logs one skip — whereas the
backup variant of the same script writes exactly one `Skipped` line, as
the claim states. -/
theorem C3_per_file_log_bug :
    countMoved (organize_files true true scenarioFS).logs = 2 ∧
    countSkipped (organize_files true true scenarioFS).logs = 6 ∧
    countMoved (organize_files_backup true true scenarioFS).logs = 2 ∧
    countSkipped (organize_files_backup true true scenarioFS).logs = 1 := by
  decide

/-- C4 (code bug): in the Part3 source the completion print/log sits
inside the per-file loop (8-space indent, lines 82-83): an empty directory
emits ZERO completion messages and a two-file directory emits TWO, whereas
the backup variant emits exactly one in both cases, as the claim states. -/
theorem C4_completion_message_bug :
    countCompleted (organize_files true true []).logs = 0 ∧
    countCompleted (organize_files true true
        [FSEntry.file "a.txt", FSEntry.file "b.png"]).logs = 2 ∧
    countCompleted (organize_files_backup true true []).logs = 1 ∧
    countCompleted (organize_files_backup true true
        [FSEntry.file "a.txt", FSEntry.file "b.png"]).logs = 1 := by
  decide

/-- C6 (counterexample): a pre-existing subdirectory named after a
category receives matching files during the run, so its contents are NOT
unchanged: `Images/` starts empty and ends holding `b.png`. -/
theorem C6_counterexample :
    dirContents [FSEntry.dir "Images" [], FSEntry.file "b.png"] "Images" =
        some [] ∧
    dirContents (organize_files true true
        [FSEntry.dir "Images" [], FSEntry.file "b.png"]).fs "Images" =
        some ["b.png"] := by
  decide

/-- C6 (amended): every directory child is skipped as a scan entry —
processing it moves nothing, recurses into nothing and emits no log or
console line — and a pre-existing subdirectory is never removed or
renamed; its contents are preserved except that files may be appended
into it when its name is a matched category. -/
theorem C6_subdirectories_skipped (cats : List (String × List String))
    (st : St) (fs : List FSEntry) (d : String) (cs : List String)
    (hd : dirContents fs d = some cs) :
    processEntryP3 cats st (FSEntry.dir d cs) = st ∧
      ∃ extra, dirContents (organize_files true true fs).fs d =
        some (cs ++ extra) := by
  refine ⟨processEntryP3_dir cats st d cs, ?_⟩
  rw [organize_files, organize_files_with_fs]
  refine foldl_preserve
    (fun st' => ∃ extra, dirContents st'.fs d = some (cs ++ extra))
    (processEntryP3 categories) fs ?_ _ ?_
  · intro st' e he hp
    exact step_preserve_dirContents e hp
  · exact ⟨[], by rw [List.append_nil]; exact hd⟩

/-- Witness for C6 (amended). -/
theorem C6_witness :
    dirContents [FSEntry.dir "Old" [], FSEntry.file "a.txt"] "Old" =
        some [] ∧
    (processEntryP3 categories ⟨[], [], [], none⟩ (FSEntry.dir "Old" []) =
        (⟨[], [], [], none⟩ : St) ∧
      ∃ extra, dirContents (organize_files true true
          [FSEntry.dir "Old" [], FSEntry.file "a.txt"]).fs "Old" =
        some ([] ++ extra)) :=
  ⟨by decide, C6_subdirectories_skipped categories ⟨[], [], [], none⟩
    [FSEntry.dir "Old" [], FSEntry.file "a.txt"] "Old" [] (by decide)⟩

/-- C7: classification is invariant under the letter case of the file
name (hence of its extension): names equal up to lower-casing classify
identically, and `photo.JPG` routes to Images exactly like `photo.jpg`. -/
theorem C7_case_insensitive (n m : String) (h : pyLower n = pyLower m) :
    classify n = classify m ∧ classify "photo.JPG" = some "Images" ∧
      classify "photo.jpg" = some "Images" := by
  refine ⟨?_, by decide, by decide⟩
  unfold classify
  rw [← pySuffix_pyLower, ← pySuffix_pyLower, h]

/-- Witness for C7. -/
theorem C7_witness :
    pyLower "photo.JPG" = pyLower "photo.jpg" ∧
    (classify "photo.JPG" = classify "photo.jpg" ∧
      classify "photo.JPG" = some "Images" ∧
      classify "photo.jpg" = some "Images") :=
  ⟨by decide, C7_case_insensitive "photo.JPG" "photo.jpg" (by decide)⟩

/-- C8 (counterexample): on an existing non-directory path the run does
abort before touching any file, but via an uncaught `NotADirectoryError`
from `iterdir()` — not "without an unhandled fault" as the claim states. -/
theorem C8_counterexample :
    (organize_files true false [FSEntry.file "a.txt"]).fault =
        some RunError.notADirectory ∧
    (organize_files true false [FSEntry.file "a.txt"]).fs =
        [FSEntry.file "a.txt"] ∧
    (organize_files true false [FSEntry.file "a.txt"]).logs = [] := by
  decide

/-- C8 (amended): if the supplied path exists but is not a directory, the
run aborts before any file is touched — no directory is created, no file
is moved, no log line is written — but it does so by propagating an
unhandled `NotADirectoryError` fault. -/
theorem C8_not_directory (fs : List FSEntry) :
    organize_files true false fs =
      { fs := fs, logs := [], console := [ConsoleLine.organizing]
        fault := some RunError.notADirectory } := rfl

/-- C9: with no positional directory argument, `main` prints the usage
line, exits with status 1, and never invokes the classifier. -/
theorem C9_usage_on_missing_argument (argv : List String)
    (hargv : argv.length < 2) (pathExists isDirectory : Bool)
    (fs : List FSEntry) :
    main argv pathExists isDirectory fs =
      { exitCode := 1, calledOrganize := false
        console := [ConsoleLine.usage], fault := none } := by
  unfold main
  rw [if_pos hargv]

/-- Witness for C9. -/
theorem C9_witness :
    (["file_organizer.py"] : List String).length < 2 ∧
    main ["file_organizer.py"] true true [] =
      { exitCode := 1, calledOrganize := false
        console := [ConsoleLine.usage], fault := none } :=
  ⟨by decide, C9_usage_on_missing_argument ["file_organizer.py"] (by decide)
    true true []⟩

end FileOrganizer
